import Mathlib

/-!
Shallow embedding of the concurrency-primitive library `concurrency.py` and
proofs checking its specification.  Each Python class becomes a Lean structure
holding the fields its `__init__` assigns; each method becomes a function on
that structure.  Blocking operations are modelled by their atomic effect: a
`wait_for(pred)` followed by a mutation under the same condition variable is
an atomic guarded transition (guard = the wait predicate at the moment the
wait returns), and an operation that cannot fire yet returns `none`.
Wall-clock instants (`datetime.now()`) are passed in explicitly as `Nat`
parameters named `now`.
-/

namespace Concurrency

/-! ## Semaphore (`Semaphore`, concurrency.py lines 159-182) -/

/-- State of `Semaphore`: the permit count `self.value`. -/
structure Semaphore where
  value : Nat
deriving DecidableEq

/-- Method `Semaphore.try_acquire` (lines 175-182) after its `wait_for` has ended:
with the lock held it checks `self.value > 0`; if so it decrements and
returns `True`, otherwise it returns `False` without mutating anything.
The input `s` is the state at the moment the wait ends; the result is the
returned boolean and the state after the call. -/
def Semaphore.tryAcquire (s : Semaphore) : Bool × Semaphore :=
  if s.value > 0 then (true, ⟨s.value - 1⟩) else (false, s)

/-! ## Reader/writer lock without writer preference (`RWLock`, lines 185-212) -/

/-- State of `RWLock`: active reader count and active writer count. -/
structure RWLock where
  readers : Nat
  writers : Nat
deriving DecidableEq

/-- The four operations of `RWLock`. -/
inductive RWOp where
  | lockRead
  | unlockRead
  | lockWrite
  | unlockWrite
deriving DecidableEq

/-- One atomic operation of `RWLock`.
`lock_read` (192-196) admits when `writers <= 0` and increments `readers`;
`lock_write` (203-207) admits when `writers + readers == 0` and increments
`writers`; the unlocks (198-201, 209-212) decrement.  Guards on the unlocks
encode the claim's side condition that every unlock matches a previously
completed lock.  `none` means the operation cannot fire in this state. -/
def RWLock.step (s : RWLock) : RWOp → Option RWLock
  | .lockRead => if s.writers ≤ 0 then some ⟨s.readers + 1, s.writers⟩ else none
  | .unlockRead => if 1 ≤ s.readers then some ⟨s.readers - 1, s.writers⟩ else none
  | .lockWrite => if s.writers + s.readers = 0 then some ⟨s.readers, s.writers + 1⟩ else none
  | .unlockWrite => if 1 ≤ s.writers then some ⟨s.readers, s.writers - 1⟩ else none

/-- Run a sequence of `RWLock` operations; `none` when some operation could
not complete. -/
def RWLock.run (s : RWLock) : List RWOp → Option RWLock
  | [] => some s
  | op :: ops =>
    match s.step op with
    | some s2 => s2.run ops
    | none => none

/-! ## Writer-preference reader/writer lock (`RWLock2`, lines 215-245) -/

/-- State of `RWLock2`: active readers, active writers, pending writers. -/
structure RWLock2 where
  readers : Nat
  writers : Nat
  pending_writers : Nat
deriving DecidableEq

/-- First statement of `RWLock2.lock_write` (line 236): the caller registers
itself as a pending writer. -/
def RWLock2.registerWriter (s : RWLock2) : RWLock2 :=
  ⟨s.readers, s.writers, s.pending_writers + 1⟩

/-- The predicate `RWLock2.lock_write` waits for (line 237):
`self.writers + self.pending_writers <= 0`. -/
def RWLock2.lockWriteReady (s : RWLock2) : Bool :=
  s.writers + s.pending_writers ≤ 0

/-! ## Cyclic barrier (`AutoBarrier`, lines 72-95) -/

/-- State of `AutoBarrier`: capacity `max_arrivals` and monotonic arrival
count `arrivals`. -/
structure AutoBarrier where
  max_arrivals : Nat
  arrivals : Nat
deriving DecidableEq

/-- What `AutoBarrier.arrive` does after updating the count: either it takes
the `notify_all` branch (releasing the round immediately) or it blocks,
waiting for `arrivals` to reach the captured threshold. -/
inductive ArriveOutcome where
  | notifyAll
  | waitFor (threshold : Nat)
deriving DecidableEq

/-- Method `AutoBarrier.arrive` (lines 79-88): increments `arrivals`, computes
`max_arrivals = arrivals - arrivals % N + N` from the *post-increment* count,
then either notifies (if `arrivals == max_arrivals`) or waits for the
computed threshold.  Returns the updated state and which branch was taken. -/
def AutoBarrier.arriveStep (b : AutoBarrier) : AutoBarrier × ArriveOutcome :=
  let arrivals := b.arrivals + 1
  let threshold := arrivals - arrivals % b.max_arrivals + b.max_arrivals
  (⟨b.max_arrivals, arrivals⟩,
    if arrivals = threshold then .notifyAll else .waitFor threshold)

/-! ## Counting signal (`ConditionEvent`, lines 135-156) -/

/-- Runtime errors of the embedded Python fragments. -/
inductive PyError where
  | attributeError
  | keyError
deriving DecidableEq

/-- State of `ConditionEvent` as `__init__` (lines 136-140) creates it: the
attributes assigned are `signaled` and `pendging` (sic).  No attribute named
`pending` is ever assigned by any method of the class. -/
structure ConditionEvent where
  signaled : Nat
  pendging : Nat
deriving DecidableEq

/-- Reading `self.pending` on a `ConditionEvent`.  `__init__` assigns only
`signaled` and `pendging`, and no method of the class ever assigns `pending`,
so in Python this attribute read always raises `AttributeError`. -/
def ConditionEvent.pendingAttr (_ : ConditionEvent) : Except PyError Nat :=
  .error .attributeError

/-- Method `ConditionEvent.signal` (lines 142-145): increments `signaled`. -/
def ConditionEvent.signal (s : ConditionEvent) : ConditionEvent :=
  ⟨s.signaled + 1, s.pendging⟩

/-- Method `ConditionEvent.signal_all` (lines 147-150): executes
`self.signaled = self.pending`, reading the never-assigned attribute
`pending`. -/
def ConditionEvent.signalAll (s : ConditionEvent) : Except PyError ConditionEvent := do
  let p ← s.pendingAttr
  pure ⟨p, s.pendging⟩

/-- The entry of `ConditionEvent.wait` (lines 152-156): executes
`pid = self.pending` (reading the never-assigned attribute `pending`), then
`self.pendging += 1`; the captured `pid` is what the wait predicate
`self.signaled > pid` would compare against. -/
def ConditionEvent.waitBegin (s : ConditionEvent) : Except PyError (Nat × ConditionEvent) := do
  let pid ← s.pendingAttr
  pure (pid, ⟨s.signaled, s.pendging + 1⟩)

/-! ## Bounded blocking queue (`BlockingQueue`, lines 265-281) -/

/-- State of `BlockingQueue`: the capacity and the deque of payloads
(front of the list = front of the deque). -/
structure BlockingQueue where
  capacity : Nat
  queue : List Nat
deriving DecidableEq

/-- The operations of `BlockingQueue`. -/
inductive QOp where
  | enq (item : Nat)
  | deq
deriving DecidableEq

/-- One completed atomic operation of `BlockingQueue`.
`enqueue` (272-276) admits when `len(queue) < capacity` and appends on the
right; `dequeue` (278-281) admits when the queue is nonempty and pops the
left end, returning it.  `none` means the operation is still blocked. -/
def BlockingQueue.step (s : BlockingQueue) : QOp → Option (BlockingQueue × Option Nat)
  | .enq x =>
    if s.queue.length < s.capacity then some (⟨s.capacity, s.queue ++ [x]⟩, none) else none
  | .deq =>
    match s.queue with
    | [] => none
    | x :: rest => some (⟨s.capacity, rest⟩, some x)

/-- Run a sequence of completed `BlockingQueue` operations, collecting the
dequeued payloads in order of completion. -/
def BlockingQueue.run (s : BlockingQueue) : List QOp → Option (BlockingQueue × List Nat)
  | [] => some (s, [])
  | op :: ops =>
    match s.step op with
    | none => none
    | some (s2, out) =>
      match s2.run ops with
      | none => none
      | some (sf, outs) => some (sf, out.toList ++ outs)

/-- The payloads enqueued by a sequence of operations, in order. -/
def enqueuedItems : List QOp → List Nat
  | [] => []
  | .enq x :: ops => x :: enqueuedItems ops
  | .deq :: ops => enqueuedItems ops

/-! ## Deadline-ordered queue (`DelayQueue`, lines 284-303)

The Python heap holds tuples `(wake_time, payload)`; `heapq` orders them by
Python tuple comparison, i.e. lexicographically by wake time, then payload.
We embed the heap as the list of its entries and the `heapq` operations by
their contract: `heappush` adds an entry, `entries[0]` / `heappop` read and
remove a least entry under the lexicographic order. -/

/-- Python tuple comparison `(w, p) <= (w2, p2)` on heap entries:
lexicographic on wake time, then payload. -/
def entryLe {α : Type} [LinearOrder α] (a b : Nat × α) : Bool :=
  if a.1 = b.1 then decide (a.2 ≤ b.2) else decide (a.1 < b.1)

/-- The least entry of `e :: l` under `entryLe`: the value `heapq` exposes
as `entries[0]` and removes with `heappop`. -/
def heapMin {α : Type} [LinearOrder α] (e : Nat × α) : List (Nat × α) → Nat × α
  | [] => e
  | f :: rest => heapMin (if entryLe e f then e else f) rest

/-- Remove the first occurrence of an entry from the heap's entry list:
the removal effect of `heappop`. -/
def removeEntry {α : Type} [LinearOrder α] [DecidableEq α] (m : Nat × α) :
    List (Nat × α) → List (Nat × α)
  | [] => []
  | e :: rest => if e = m then rest else e :: removeEntry m rest

/-- State of `DelayQueue`: the entries `(wake_time, payload)` of the heap. -/
structure DelayQueue (α : Type) where
  entries : List (Nat × α)
deriving DecidableEq

/-- Method `DelayQueue.enqueue` (lines 290-293): pushes
`(datetime.now() + timeout, value)` and notifies all waiters. -/
def DelayQueue.enqueue {α : Type} (q : DelayQueue α) (now : Nat) (value : α)
    (timeout : Nat) : DelayQueue α :=
  ⟨(now + timeout, value) :: q.entries⟩

/-- Method `DelayQueue.dequeue` (lines 295-303) observed at instant `now`: the
`while` loop keeps waiting while the heap is empty or its least entry's wake
time is still in the future (re-reading `self.entries[0]` on every check);
once the least entry is due, `heappop` removes it and its payload is
returned.  `none` means the call is still blocked at this instant. -/
def DelayQueue.dequeueReady {α : Type} [LinearOrder α] [DecidableEq α]
    (q : DelayQueue α) (now : Nat) : Option (α × DelayQueue α) :=
  match q.entries with
  | [] => none
  | e :: rest =>
    let m := heapMin e rest
    if m.1 ≤ now then some (m.2, ⟨removeEntry m (e :: rest)⟩) else none

/-! ## Expiring key-value store (`ExpireMap`, lines 366-404)

`self.table` is a `defaultdict` mapping a key to a dict
`{"value": ..., "when": ...}` with default `{"value": None, "when": None}`;
we embed it as an association list of `MapEntry`.  A plain `d[key]` read on
the `defaultdict` inserts the default entry when the key is absent; `del`
raises `KeyError` on an absent key. -/

/-- One `{"value": ..., "when": ...}` dict of `ExpireMap.table`.  `value` is
the stored payload (`None` embedded as `none`), `when` the optional absolute
expiry instant. -/
structure MapEntry where
  value : Option String
  «when» : Option Nat
deriving DecidableEq

/-- The `defaultdict` default factory (line 368):
`{"value": None, "when": None}`. -/
def defaultEntry : MapEntry := ⟨none, none⟩

/-- Dictionary lookup `key in table` / read without default insertion. -/
def lookupKey (k : String) : List (String × MapEntry) → Option MapEntry
  | [] => none
  | (k2, e) :: rest => if k2 = k then some e else lookupKey k rest

/-- Embeds `defaultdict.__getitem__`: returns the stored dict, inserting the
default entry first when the key is absent.  Result: the entry read and the
table after the read. -/
def getDefault (t : List (String × MapEntry)) (k : String) :
    MapEntry × List (String × MapEntry) :=
  match lookupKey k t with
  | some e => (e, t)
  | none => (defaultEntry, t ++ [(k, defaultEntry)])

/-- Overwrite the entry stored under `k` (the key is present after a
`defaultdict` read, so absent keys are appended). -/
def setEntry (t : List (String × MapEntry)) (k : String) (e : MapEntry) :
    List (String × MapEntry) :=
  match lookupKey k t with
  | some _ => t.map (fun p => if p.1 = k then (k, e) else p)
  | none => t ++ [(k, e)]

/-- Embeds `del table[key]`: removes the key's binding. -/
def delKey (t : List (String × MapEntry)) (k : String) : List (String × MapEntry) :=
  t.filter (fun p => p.1 ≠ k)

/-- State of `ExpireMap`: the table and the `DelayQueue` of `(wake, key)`
timer entries (`self.keys`). -/
structure ExpireMap where
  table : List (String × MapEntry)
  keys : DelayQueue String
deriving DecidableEq

/-- The state `ExpireMap.__init__` (lines 367-372) creates: empty table,
empty timer queue. -/
def ExpireMap.init : ExpireMap := ⟨[], ⟨[]⟩⟩

/-- Method `ExpireMap.contains` (lines 383-385): `key in self.table` (a plain
membership test, no default insertion, no expiry check). -/
def ExpireMap.contains (m : ExpireMap) (k : String) : Bool :=
  (lookupKey k m.table).isSome

/-- Method `ExpireMap.get` (lines 387-389): returns `self.table[key]["value"]`.
The `defaultdict` read inserts the default entry when `key` is absent, so
the call also returns the mutated store. -/
def ExpireMap.get (m : ExpireMap) (k : String) : Option String × ExpireMap :=
  let r := getDefault m.table k
  (r.1.value, ⟨r.2, m.keys⟩)

/-- Method `ExpireMap.put` (lines 391-393): `self.table[key]["value"] = value` —
upserts the value of the (possibly freshly defaulted) entry and leaves its
`when` field untouched. -/
def ExpireMap.put (m : ExpireMap) (k : String) (v : String) : ExpireMap :=
  let r := getDefault m.table k
  ⟨setEntry r.2 k ⟨some v, r.1.when⟩, m.keys⟩

/-- Method `ExpireMap.remove` (lines 395-404) at instant `now`: with positive
`timeout` it stores `when = now + timeout` on the entry and enqueues
`(key, timeout)` on the timer queue; with `timeout == 0` it executes
`del self.table[key]`, which raises `KeyError` when the key is absent. -/
def ExpireMap.remove (m : ExpireMap) (k : String) (timeout : Nat) (now : Nat) :
    Except PyError ExpireMap :=
  if timeout > 0 then
    let r := getDefault m.table k
    .ok ⟨setEntry r.2 k ⟨r.1.value, some (now + timeout)⟩,
      m.keys.enqueue now k timeout⟩
  else
    match lookupKey k m.table with
    | some _ => .ok ⟨delKey m.table k, m.keys⟩
    | none => .error .keyError

/-- One iteration of `ExpireMap._run_worker` (lines 374-381) at instant
`now`: dequeue a due key from the timer queue; if the key is in the table
and its current `when` is `None` or already due, delete it.  `none` means
the worker is still blocked in `dequeue` at this instant. -/
def ExpireMap.workerStep (m : ExpireMap) (now : Nat) : Option ExpireMap :=
  match m.keys.dequeueReady now with
  | none => none
  | some (k, q2) =>
    match lookupKey k m.table with
    | none => some ⟨m.table, q2⟩
    | some e =>
      match e.when with
      | none => some ⟨delKey m.table k, q2⟩
      | some w => if w ≤ now then some ⟨delKey m.table k, q2⟩ else some ⟨m.table, q2⟩

/-! ## Concrete scenarios from the specification's testable properties -/

/-- The spec's rewrite-after-scheduled-removal scenario, with instants in
abstract ticks: at tick 0, `put("k", "v")` then `remove("k", timeout=5)`;
still before tick 5, `put("k", "v2")`; at tick 5 the background worker
processes the timer entry that became due; finally read `get("k")`.
The result is the worker's availability (`some` once the timer is due)
wrapping the value `get` returns. -/
def rewriteScenario : Except PyError (Option (Option String)) := do
  let m1 := ExpireMap.init.put "k" "v"
  let m2 ← m1.remove "k" 5 0
  let m3 := m2.put "k" "v2"
  pure ((m3.workerStep 5).map (fun m4 => (m4.get "k").1))

/-- The stale-timer scenario for a key with no expiry set: at tick 0,
`put("k", "v")` then `remove("k", timeout=5)` (queues a timer due at 5);
at tick 1, `remove("k", timeout=0)` (synchronous delete) and `put("k", "v2")`
(re-creates the entry with `when = None`); at tick 5 the worker processes
the leftover timer.  The result pairs the table entry of `"k"` just before
the worker runs with `contains("k")` after the worker step. -/
def staleTimerScenario : Except PyError (Option MapEntry × Option Bool) := do
  let m1 := ExpireMap.init.put "k" "v"
  let m2 ← m1.remove "k" 5 0
  let m3 ← m2.remove "k" 0 1
  let m4 := m3.put "k" "v2"
  pure (lookupKey "k" m4.table, (m4.workerStep 5).map (fun m5 => m5.contains "k"))

/-- The invariant carried by every reachable `RWLock` state: at most one
writer, and a writer excludes all readers. -/
def RWInv (s : RWLock) : Prop :=
  s.writers = 0 ∨ (s.writers = 1 ∧ s.readers = 0)

end Concurrency

namespace Concurrency

/-! ## Theorems -/

/-- Lemma: `RWLock.step` preserves the exclusivity invariant. -/
theorem RWLock.step_inv {s s2 : RWLock} {op : RWOp} (hs : RWInv s)
    (h : s.step op = some s2) : RWInv s2 := by
  obtain ⟨r, w⟩ := s
  unfold RWInv at hs ⊢
  replace hs : w = 0 ∨ (w = 1 ∧ r = 0) := hs
  cases op with
  | lockRead =>
    simp only [RWLock.step] at h
    split at h
    · cases h
      show w = 0 ∨ (w = 1 ∧ r + 1 = 0)
      omega
    · cases h
  | unlockRead =>
    simp only [RWLock.step] at h
    split at h
    · cases h
      show w = 0 ∨ (w = 1 ∧ r - 1 = 0)
      omega
    · cases h
  | lockWrite =>
    simp only [RWLock.step] at h
    split at h
    · cases h
      show w + 1 = 0 ∨ (w + 1 = 1 ∧ r = 0)
      omega
    · cases h
  | unlockWrite =>
    simp only [RWLock.step] at h
    split at h
    · cases h
      show w - 1 = 0 ∨ (w - 1 = 1 ∧ r = 0)
      omega
    · cases h

/-- Lemma: `RWLock.run` preserves the exclusivity invariant. -/
theorem RWLock.run_inv : ∀ (ops : List RWOp) (s s2 : RWLock),
    RWInv s → RWLock.run s ops = some s2 → RWInv s2
  | [], s, s2, hs, h => by
    unfold RWLock.run at h
    simp only [Option.some.injEq] at h
    subst h
    exact hs
  | op :: ops, s, s2, hs, h => by
    unfold RWLock.run at h
    cases hstep : s.step op with
    | none => rw [hstep] at h; cases h
    | some s1 =>
      rw [hstep] at h
      exact RWLock.run_inv ops s1 s2 (RWLock.step_inv hs hstep) h

/-- C8: in every state of `RWLock` reachable from the initial state by a
sequence of completed `lock_read`/`unlock_read`/`lock_write`/`unlock_write`
operations (each unlock matching a prior completed lock), the active writer
count and the active reader count are never simultaneously nonzero. -/
theorem rwlock_exclusive (ops : List RWOp) (s : RWLock)
    (h : RWLock.run ⟨0, 0⟩ ops = some s) : ¬(0 < s.readers ∧ 0 < s.writers) := by
  have hinv := RWLock.run_inv ops ⟨0, 0⟩ s (Or.inl rfl) h
  unfold RWInv at hinv
  omega

/-- Witness for C8: a concrete operation sequence reaching a writer-held
state, on which the exclusivity theorem applies. -/
theorem rwlock_exclusive_witness :
    RWLock.run ⟨0, 0⟩ [RWOp.lockRead, RWOp.unlockRead, RWOp.lockWrite] = some ⟨0, 1⟩
    ∧ ¬(0 < (⟨0, 1⟩ : RWLock).readers ∧ 0 < (⟨0, 1⟩ : RWLock).writers) :=
  ⟨by decide,
    rwlock_exclusive [RWOp.lockRead, RWOp.unlockRead, RWOp.lockWrite] ⟨0, 1⟩ (by decide)⟩

/-- C7: `Semaphore.try_acquire` returns `True` and decrements the permit
count by one precisely when the count is strictly positive at the moment its
wait ends; otherwise it returns `False` and leaves the state unchanged
(and it raises nothing: the operation is total). -/
theorem tryAcquire_spec (s : Semaphore) :
    (s.tryAcquire.1 = true ↔ 0 < s.value)
    ∧ (0 < s.value → s.tryAcquire.2.value = s.value - 1)
    ∧ (s.tryAcquire.1 = false → s.tryAcquire.2 = s) := by
  unfold Semaphore.tryAcquire
  by_cases h : 0 < s.value <;> simp [h]

/-- Witness for C7: with two permits, `try_acquire` succeeds and leaves one
permit; the success branch of the theorem applies. -/
theorem tryAcquire_spec_witness :
    (Semaphore.tryAcquire ⟨2⟩).1 = true ∧ (Semaphore.tryAcquire ⟨2⟩).2.value = 1 :=
  ⟨(tryAcquire_spec ⟨2⟩).1.mpr (by decide), (tryAcquire_spec ⟨2⟩).2.1 (by decide)⟩

/-- C2 (failing-state evaluation): the predicate `lock_write` waits on,
`writers + pending_writers <= 0`, is false in every state in which at least
one writer is pending — including every state after the caller itself
registered as pending, so the wait can never end: draining readers and
writers does not make it satisfiable. -/
theorem lockWrite_wait_unsatisfiable (s : RWLock2) (h : 1 ≤ s.pending_writers) :
    s.lockWriteReady = false := by
  unfold RWLock2.lockWriteReady
  simp
  omega

/-- Witness for C2: a writer registering on a completely drained lock
(no readers, no writers) still finds the wait predicate false. -/
theorem lockWrite_wait_unsatisfiable_witness :
    1 ≤ (RWLock2.registerWriter ⟨0, 0, 0⟩).pending_writers
    ∧ (RWLock2.registerWriter ⟨0, 0, 0⟩).lockWriteReady = false :=
  ⟨by decide, lockWrite_wait_unsatisfiable (RWLock2.registerWriter ⟨0, 0, 0⟩) (by decide)⟩

/-- C3 (failing-branch evaluation): on every `arrive`, the threshold
computed from the post-increment count strictly exceeds that count, so the
`notify_all` branch (`arrivals == max_arrivals`) is unreachable and every
caller — including the one whose arrival completes a round — takes the wait
branch on a threshold it has not reached. -/
theorem arrive_always_waits (b : AutoBarrier) (h : 1 ≤ b.max_arrivals) :
    ∃ t, b.arriveStep.2 = ArriveOutcome.waitFor t ∧ b.arriveStep.1.arrivals < t := by
  have hlt : (b.arrivals + 1) % b.max_arrivals < b.max_arrivals :=
    Nat.mod_lt _ (by omega)
  have hle : (b.arrivals + 1) % b.max_arrivals ≤ b.arrivals + 1 :=
    Nat.mod_le _ _
  refine ⟨b.arrivals + 1 - (b.arrivals + 1) % b.max_arrivals + b.max_arrivals, ?_, ?_⟩
  · show (if b.arrivals + 1
          = b.arrivals + 1 - (b.arrivals + 1) % b.max_arrivals + b.max_arrivals
        then ArriveOutcome.notifyAll
        else ArriveOutcome.waitFor
          (b.arrivals + 1 - (b.arrivals + 1) % b.max_arrivals + b.max_arrivals))
      = ArriveOutcome.waitFor
          (b.arrivals + 1 - (b.arrivals + 1) % b.max_arrivals + b.max_arrivals)
    rw [if_neg (by omega)]
  · show b.arrivals + 1
      < b.arrivals + 1 - (b.arrivals + 1) % b.max_arrivals + b.max_arrivals
    omega

/-- Witness for C3: with capacity 1, the very first arrival — which reaches
the multiple `1 * 1` of the capacity and per the claim should release
immediately — instead takes the wait branch. -/
theorem arrive_always_waits_witness :
    1 ≤ (⟨1, 0⟩ : AutoBarrier).max_arrivals
    ∧ ∃ t, (AutoBarrier.arriveStep ⟨1, 0⟩).2 = ArriveOutcome.waitFor t
        ∧ (AutoBarrier.arriveStep ⟨1, 0⟩).1.arrivals < t :=
  ⟨by decide, arrive_always_waits ⟨1, 0⟩ (by decide)⟩

/-- C5 (failing evaluation): on every `ConditionEvent` state, both `wait`
and `signal_all` raise `AttributeError` at their first read of
`self.pending`, an attribute no method of the class ever assigns (the
counter `wait` would increment is the misspelled field `pendging`, which
`signal_all` never reads). -/
theorem conditionEvent_raises (s : ConditionEvent) :
    s.waitBegin = .error .attributeError ∧ s.signalAll = .error .attributeError :=
  ⟨rfl, rfl⟩

/-- Helper for C9: along any completed run of a `BlockingQueue`, the
capacity is constant, the length bound is preserved, and the dequeued
payloads followed by the remaining queue reproduce the initial queue plus
the enqueued payloads in order. -/
theorem BlockingQueue.run_spec : ∀ (ops : List QOp) (s0 sf : BlockingQueue)
    (outs : List Nat), s0.queue.length ≤ s0.capacity →
    BlockingQueue.run s0 ops = some (sf, outs) →
    sf.capacity = s0.capacity ∧ sf.queue.length ≤ s0.capacity
      ∧ outs ++ sf.queue = s0.queue ++ enqueuedItems ops
  | [], s0, sf, outs, hlen, h => by
    simp only [BlockingQueue.run, Option.some.injEq, Prod.mk.injEq] at h
    obtain ⟨rfl, rfl⟩ := h
    exact ⟨rfl, hlen, by simp [enqueuedItems]⟩
  | .enq x :: ops, s0, sf, outs, hlen, h => by
    obtain ⟨cap, q⟩ := s0
    by_cases hg : q.length < cap
    · have hstep : BlockingQueue.step ⟨cap, q⟩ (.enq x) = some (⟨cap, q ++ [x]⟩, none) := by
        simp [BlockingQueue.step, hg]
      rw [BlockingQueue.run, hstep] at h
      dsimp only at h
      cases hrun : BlockingQueue.run ⟨cap, q ++ [x]⟩ ops with
      | none => rw [hrun] at h; cases h
      | some p =>
        obtain ⟨sf2, outs2⟩ := p
        rw [hrun] at h
        simp only [Option.toList, List.nil_append, Option.some.injEq, Prod.mk.injEq] at h
        obtain ⟨rfl, rfl⟩ := h
        have ih := BlockingQueue.run_spec ops ⟨cap, q ++ [x]⟩ sf2 outs2
          (by simp; omega) hrun
        refine ⟨ih.1, by simpa using ih.2.1, ?_⟩
        have h3 := ih.2.2
        simp only [enqueuedItems]
        simp only [List.append_assoc, List.singleton_append] at h3
        simpa using h3
    · have hstep : BlockingQueue.step ⟨cap, q⟩ (.enq x) = none := by
        simp [BlockingQueue.step, hg]
      rw [BlockingQueue.run, hstep] at h
      cases h
  | .deq :: ops, s0, sf, outs, hlen, h => by
    obtain ⟨cap, q⟩ := s0
    cases q with
    | nil =>
      have hstep : BlockingQueue.step ⟨cap, []⟩ .deq = none := rfl
      rw [BlockingQueue.run, hstep] at h
      cases h
    | cons x rest =>
      have hstep : BlockingQueue.step ⟨cap, x :: rest⟩ .deq = some (⟨cap, rest⟩, some x) := rfl
      rw [BlockingQueue.run, hstep] at h
      dsimp only at h
      cases hrun : BlockingQueue.run ⟨cap, rest⟩ ops with
      | none => rw [hrun] at h; cases h
      | some p =>
        obtain ⟨sf2, outs2⟩ := p
        rw [hrun] at h
        simp only [Option.toList, List.singleton_append, Option.some.injEq,
          Prod.mk.injEq] at h
        obtain ⟨rfl, rfl⟩ := h
        have ih := BlockingQueue.run_spec ops ⟨cap, rest⟩ sf2 outs2
          (by simp at hlen ⊢; omega) hrun
        refine ⟨ih.1, by simpa using ih.2.1, ?_⟩
        have h3 := ih.2.2
        simp only [enqueuedItems, List.cons_append]
        simp only at h3
        rw [h3]

/-- C9: starting from an empty bounded queue of capacity `C`, after any
sequence of completed `enqueue`/`dequeue` operations the queue never holds
more than `C` items, and the dequeued payloads, followed by the payloads
still queued, are exactly the enqueued payloads in enqueue-completion order
(FIFO). -/
theorem blockingQueue_capacity_fifo (cap : Nat) (ops : List QOp) (sf : BlockingQueue)
    (outs : List Nat) (h : BlockingQueue.run ⟨cap, []⟩ ops = some (sf, outs)) :
    sf.queue.length ≤ cap ∧ outs ++ sf.queue = enqueuedItems ops := by
  have hs := BlockingQueue.run_spec ops ⟨cap, []⟩ sf outs (by simp) h
  exact ⟨hs.2.1, by simpa using hs.2.2⟩

/-- Witness for C9: a concrete capacity-2 run with an interleaved third
enqueue; the dequeued order is the enqueue order. -/
theorem blockingQueue_capacity_fifo_witness :
    BlockingQueue.run ⟨2, []⟩ [QOp.enq 1, QOp.enq 2, QOp.deq, QOp.enq 3, QOp.deq, QOp.deq]
      = some (⟨2, []⟩, [1, 2, 3])
    ∧ ((⟨2, []⟩ : BlockingQueue).queue.length ≤ 2
      ∧ [1, 2, 3] ++ (⟨2, []⟩ : BlockingQueue).queue
        = enqueuedItems [QOp.enq 1, QOp.enq 2, QOp.deq, QOp.enq 3, QOp.deq, QOp.deq]) :=
  ⟨by decide,
    blockingQueue_capacity_fifo 2 [QOp.enq 1, QOp.enq 2, QOp.deq, QOp.enq 3, QOp.deq, QOp.deq]
      ⟨2, []⟩ [1, 2, 3] (by decide)⟩

/-- Lemma: `entryLe` is the lexicographic order on (wake time, payload). -/
theorem entryLe_iff {α : Type} [LinearOrder α] (a b : Nat × α) :
    entryLe a b = true ↔ a.1 < b.1 ∨ (a.1 = b.1 ∧ a.2 ≤ b.2) := by
  unfold entryLe
  by_cases h : a.1 = b.1 <;> simp [h]

/-- Lemma: `entryLe` is reflexive. -/
theorem entryLe_refl {α : Type} [LinearOrder α] (a : Nat × α) : entryLe a a = true := by
  simp [entryLe]

/-- Lemma: `entryLe` is total. -/
theorem entryLe_total {α : Type} [LinearOrder α] (a b : Nat × α) :
    entryLe a b = true ∨ entryLe b a = true := by
  rw [entryLe_iff, entryLe_iff]
  rcases lt_trichotomy a.1 b.1 with h | h | h
  · exact Or.inl (Or.inl h)
  · rcases le_total a.2 b.2 with h2 | h2
    · exact Or.inl (Or.inr ⟨h, h2⟩)
    · exact Or.inr (Or.inr ⟨h.symm, h2⟩)
  · exact Or.inr (Or.inl h)

/-- Lemma: `entryLe` is transitive. -/
theorem entryLe_trans {α : Type} [LinearOrder α] {a b c : Nat × α}
    (h1 : entryLe a b = true) (h2 : entryLe b c = true) : entryLe a c = true := by
  rw [entryLe_iff] at h1 h2 ⊢
  rcases h1 with h1 | ⟨h1e, h1le⟩ <;> rcases h2 with h2 | ⟨h2e, h2le⟩
  · exact Or.inl (h1.trans h2)
  · exact Or.inl (by rw [← h2e]; exact h1)
  · exact Or.inl (by rw [h1e]; exact h2)
  · exact Or.inr ⟨h1e.trans h2e, h1le.trans h2le⟩

/-- The heap minimum is one of the entries. -/
theorem heapMin_mem {α : Type} [LinearOrder α] :
    ∀ (l : List (Nat × α)) (e : Nat × α), heapMin e l ∈ e :: l
  | [], e => by simp [heapMin]
  | g :: rest, e => by
    rw [heapMin]
    have hm := heapMin_mem rest (if entryLe e g then e else g)
    rcases List.mem_cons.mp hm with h | h
    · rw [h]
      split
      · exact List.mem_cons_self _ _
      · exact List.mem_cons_of_mem _ (List.mem_cons_self _ _)
    · exact List.mem_cons_of_mem _ (List.mem_cons_of_mem _ h)

/-- The heap minimum is below every entry. -/
theorem heapMin_le {α : Type} [LinearOrder α] :
    ∀ (l : List (Nat × α)) (e f : Nat × α), f ∈ e :: l → entryLe (heapMin e l) f = true
  | [], e, f, hf => by
    simp at hf
    subst hf
    exact entryLe_refl _
  | g :: rest, e, f, hf => by
    rw [heapMin]
    have hme : entryLe (if entryLe e g then e else g) e = true := by
      split
      · exact entryLe_refl e
      · next hneg =>
        rcases entryLe_total e g with h | h
        · exact absurd h hneg
        · exact h
    have hmg : entryLe (if entryLe e g then e else g) g = true := by
      split
      · next hpos => exact hpos
      · exact entryLe_refl g
    rcases List.mem_cons.mp hf with rfl | hf2
    · exact entryLe_trans (heapMin_le rest _ _ (List.mem_cons_self _ _)) hme
    · rcases List.mem_cons.mp hf2 with rfl | hf3
      · exact entryLe_trans (heapMin_le rest _ _ (List.mem_cons_self _ _)) hmg
      · exact heapMin_le rest _ f (List.mem_cons_of_mem _ hf3)

/-- An entry below the whole heap is its minimum. -/
theorem heapMin_eq_of_le {α : Type} [LinearOrder α] :
    ∀ (l : List (Nat × α)) (e : Nat × α), (∀ f ∈ l, entryLe e f = true) → heapMin e l = e
  | [], _, _ => rfl
  | g :: rest, e, h => by
    rw [heapMin, if_pos (h g (List.mem_cons_self _ _))]
    exact heapMin_eq_of_le rest e (fun f hf => h f (List.mem_cons_of_mem _ hf))

/-- Removing an entry present in the heap leaves a permutation witness:
the heap is the removed entry plus the remainder. -/
theorem perm_removeEntry {α : Type} [LinearOrder α] [DecidableEq α] :
    ∀ (l : List (Nat × α)) (m : Nat × α), m ∈ l → l.Perm (m :: removeEntry m l)
  | [], m, hm => absurd hm (List.not_mem_nil m)
  | e :: rest, m, hm => by
    rw [removeEntry]
    split
    · next he =>
      subst he
      exact List.Perm.refl _
    · next hne =>
      have hm2 : m ∈ rest := by
        rcases List.mem_cons.mp hm with h | h
        · exact absurd h.symm hne
        · exact h
      have ih := perm_removeEntry rest m hm2
      exact (List.Perm.cons e ih).trans (List.Perm.swap m e _)

/-- C6: earliest-deadline-first for the `DelayQueue`.  Whenever `dequeue`
returns at instant `now`, the payload belongs to an entry whose wake time is
already due and minimal among all entries present, and exactly that entry is
removed; while every wake time is in the future, `dequeue` stays blocked;
and an entry enqueued with an earlier deadline than everything present —
even while a consumer is already waiting — is the one returned once due. -/
theorem delayQueue_earliest_first (l : List (Nat × Nat)) (now : Nat) :
    (∀ p q2, DelayQueue.dequeueReady ⟨l⟩ now = some (p, q2) →
      ∃ w, (w, p) ∈ l ∧ w ≤ now ∧ (∀ e ∈ l, w ≤ e.1)
        ∧ l.Perm ((w, p) :: q2.entries))
    ∧ ((∀ e ∈ l, now < e.1) → DelayQueue.dequeueReady ⟨l⟩ now = none)
    ∧ (∀ t v d, t + d ≤ now → (∀ e ∈ l, t + d < e.1) →
      DelayQueue.dequeueReady (DelayQueue.enqueue ⟨l⟩ t v d) now = some (v, ⟨l⟩)) := by
  refine ⟨?_, ?_, ?_⟩
  · intro p q2 h
    unfold DelayQueue.dequeueReady at h
    cases l with
    | nil => cases h
    | cons e rest =>
      dsimp only at h
      split at h
      · next hle =>
        simp only [Option.some.injEq, Prod.mk.injEq] at h
        obtain ⟨hp, hq⟩ := h
        subst hp
        subst hq
        refine ⟨(heapMin e rest).1, ?_, hle, ?_, ?_⟩
        · rw [Prod.mk.eta]
          exact heapMin_mem rest e
        · intro f hf
          have hlef := heapMin_le rest e f hf
          rcases (entryLe_iff _ _).mp hlef with h | ⟨h, _⟩
          · exact le_of_lt h
          · exact le_of_eq h
        · rw [Prod.mk.eta]
          exact perm_removeEntry _ (heapMin e rest) (heapMin_mem rest e)
      · next => cases h
  · intro hall
    unfold DelayQueue.dequeueReady
    cases l with
    | nil => rfl
    | cons e rest =>
      dsimp only
      have hm := hall (heapMin e rest) (heapMin_mem rest e)
      rw [if_neg (by omega)]
  · intro t v d hnow hlt
    unfold DelayQueue.enqueue DelayQueue.dequeueReady
    dsimp only
    have hmin : heapMin (t + d, v) l = (t + d, v) :=
      heapMin_eq_of_le l _ (fun f hf => (entryLe_iff _ _).mpr (Or.inl (hlt f hf)))
    rw [hmin]
    rw [if_pos hnow]
    rw [removeEntry, if_pos rfl]

/-- Witness for C6: with an entry due at 10 already present and a consumer
observing the queue, an entry enqueued at instant 0 with delay 3 is the one
dequeued at instant 5. -/
theorem delayQueue_earliest_first_witness :
    DelayQueue.dequeueReady (DelayQueue.enqueue ⟨[(10, 1)]⟩ 0 2 3) 5
      = some (2, ⟨[(10, 1)]⟩) :=
  (delayQueue_earliest_first [(10, 1)] 5).2.2 0 2 3 (by decide) (by decide)

/-- Helper for C10: appending a binding for a key absent from the table
makes lookup find it. -/
theorem lookupKey_append (k : String) (e : MapEntry) :
    ∀ t : List (String × MapEntry), lookupKey k t = none →
      lookupKey k (t ++ [(k, e)]) = some e
  | [], _ => by simp [lookupKey]
  | (k2, e2) :: rest, h => by
    rw [List.cons_append, lookupKey]
    rw [lookupKey] at h
    split at h
    · cases h
    · next hne =>
      rw [if_neg hne]
      exact lookupKey_append k e rest h

/-- C10: on the expiring store, `get` on an absent key does not raise — it
returns `None` — and as a side effect the `defaultdict` read inserts a
default entry for the key, so `contains` returns `True` immediately
afterwards; a key never put is thus indistinguishable from one whose stored
value is `None`. -/
theorem get_absent_inserts (m : ExpireMap) (k : String) (h : m.contains k = false) :
    (m.get k).1 = none ∧ (m.get k).2.contains k = true := by
  unfold ExpireMap.contains at h
  have hl : lookupKey k m.table = none := by
    cases hx : lookupKey k m.table with
    | none => rfl
    | some e => rw [hx] at h; cases h
  unfold ExpireMap.get getDefault
  rw [hl]
  dsimp only
  refine ⟨rfl, ?_⟩
  unfold ExpireMap.contains
  dsimp only
  rw [lookupKey_append k defaultEntry m.table hl]
  rfl

/-- Witness for C10: on the fresh store, `get "k"` returns `None` and makes
`contains "k"` true. -/
theorem get_absent_inserts_witness :
    ExpireMap.init.contains "k" = false
    ∧ ((ExpireMap.init.get "k").1 = none
      ∧ (ExpireMap.init.get "k").2.contains "k" = true) :=
  ⟨rfl, get_absent_inserts ExpireMap.init "k" rfl⟩

/-- C1 (failing evaluation): in the rewrite-after-scheduled-removal scenario
the worker, once the timer is due, erases the value `"v2"` written by the
second `put`, and the final `get("k")` returns `None` instead of `"v2"`:
`put` leaves the stale `when` of the earlier `remove` in place, so the
worker's fire-time re-check sees a due expiry and deletes the key. -/
theorem rewriteScenario_value_erased : rewriteScenario = .ok (some none) := rfl

/-- C4 (failing evaluation): in the stale-timer scenario the entry
re-created by `put` has no expiry set (`when = None`), yet when the leftover
timer fires, the worker deletes the key (`contains` becomes false): the
worker's `when is None` branch deletes rather than spares no-expiry keys. -/
theorem staleTimer_evicts_noExpiry_key :
    staleTimerScenario = .ok (some ⟨some "v2", none⟩, some false) := rfl

end Concurrency
